import Mathlib

/-
Verification of the attachment lifecycle and event pipeline of
pkg/gadgets/internal/networktracer/tracer.go and of the socket enricher of
pkg/gadgets/internal/socketenricher/tracer.go, via a shallow embedding.

Process ids and network-namespace inode numbers are modelled as Nat.
Kernel resources (ebpf collection, perf reader) are modelled as opaque
numeric handles; raw-socket file descriptors as Int (the source uses the
sentinel -1 for "not yet opened", tracer.go line 64).  Mutation of the
receiver is modelled by returning the new state; externally visible
resource operations are modelled as an explicit effect trace.
-/

namespace NetworkTracer

/-- One `attachment` (tracer.go lines 40-52): the loaded collection, the
perf reader, the raw-socket fd, and the set of interested pids (`users`),
modelled as a duplicate-free list. -/
structure Attachment where
  collection : Nat
  perfRd : Nat
  sockFd : Int
  users : List Nat
deriving DecidableEq, Repr

/-- Resource-release effects performed by `releaseAttachment`
(tracer.go lines 257-262). -/
inductive Effect where
  | closePerfRd (rd : Nat)
  | closeSockFd (fd : Int)
  | closeCollection (c : Nat)
deriving DecidableEq, Repr

/-- The `Tracer` state relevant to Attach/Detach: the `attachments` map
(tracer.go line 133), keyed by netns inode.  The Go map is embedded as an
association list with pairwise-distinct keys; `Detach`'s range loop becomes
a scan in list order. -/
structure TracerState where
  attachments : List (Nat × Attachment)
deriving DecidableEq, Repr

/-- Updating the attachment stored under a key, i.e. mutating through the
pointer held in the Go map. -/
def updateAttachment (l : List (Nat × Attachment)) (netns : Nat) (a : Attachment) :
    List (Nat × Attachment) :=
  l.map (fun p => if p.1 = netns then (netns, a) else p)

/-- The map insert `a.users[pid] = struct{}{}` (tracer.go line 188):
idempotent set insertion. -/
def insertUser (pid : Nat) (a : Attachment) : Attachment :=
  { a with users := if pid ∈ a.users then a.users else a.users ++ [pid] }

/-- Model of `Tracer.releaseAttachment` (tracer.go lines 257-262): close the perf
reader, close the raw socket, close the collection, delete the entry. -/
def releaseAttachment (t : TracerState) (netns : Nat) (a : Attachment) :
    TracerState × List Effect :=
  (⟨t.attachments.filter (fun p => decide (p.1 ≠ netns))⟩,
   [Effect.closePerfRd a.perfRd, Effect.closeSockFd a.sockFd,
    Effect.closeCollection a.collection])

/-- Model of `Tracer.Detach` (tracer.go lines 264-275): scan `attachments` for the
first one whose `users` contains `pid`; remove the pid; if the user set
became empty, release the attachment.  Returns the new state, the release
effects, and the error (`none` = success). -/
def detach (t : TracerState) (pid : Nat) : TracerState × List Effect × Option String :=
  match t.attachments.find? (fun p => decide (pid ∈ p.2.users)) with
  | some (netns, a) =>
    let a' := { a with users := a.users.erase pid }
    if a'.users.isEmpty then
      let r := releaseAttachment t netns a'
      (r.1, r.2, none)
    else
      (⟨updateAttachment t.attachments netns a'⟩, [], none)
  | none => (t, [], some ("pid " ++ toString pid ++ " is not attached"))

/-- Model of `Tracer.Attach` (tracer.go lines 182-202), parameterised by the
namespace-discovery collaborator `getNetNs` and by the outcome of
`newAttachment` (`construct`).  Returns the new state and the error
(`none` = success). -/
def attach (getNetNs : Nat → Except String Nat)
    (construct : Nat → Nat → Except String Attachment)
    (t : TracerState) (pid : Nat) : TracerState × Option String :=
  match getNetNs pid with
  | Except.error e =>
    (t, some ("getting network namespace of pid " ++ toString pid ++ ": " ++ e))
  | Except.ok netns =>
    match t.attachments.find? (fun p => decide (p.1 = netns)) with
    | some (n, a) => (⟨updateAttachment t.attachments n (insertUser pid a)⟩, none)
    | none =>
      match construct pid netns with
      | Except.error e =>
        (t, some ("creating network tracer attachment for pid " ++ toString pid ++ ": " ++ e))
      | Except.ok a => (⟨t.attachments ++ [(netns, a)]⟩, none)

/-- The attachment `newAttachment` hands back on success: `users` starts as
the singleton of the attaching pid (tracer.go line 65); the resource
handles are environment-chosen.  Used to model successful construction. -/
def mkAttachment (pid : Nat) : Attachment :=
  { collection := 0, perfRd := 0, sockFd := 0, users := [pid] }

/-- A caller-visible operation on the tracer, for reasoning about
Attach/Detach sequences. -/
inductive Op where
  | attachOp (pid : Nat)
  | detachOp (pid : Nat)
deriving DecidableEq, Repr

/-- Run a sequence of Attach/Detach calls from a given state, with a fixed
pid-to-netns resolution `f` and always-successful attachment construction. -/
def runOps (f : Nat → Nat) (ops : List Op) (t : TracerState) : TracerState :=
  ops.foldl (fun t op =>
    match op with
    | Op.attachOp pid =>
      (attach (fun p => Except.ok (f p)) (fun p _ => Except.ok (mkAttachment p)) t pid).1
    | Op.detachOp pid => (detach t pid).1) t

/-- Whether `pid` is currently attached after `ops`: the last operation on
it was an attach.  (With resolution total and construction succeeding,
`Attach` always succeeds; `Detach` of an unattached pid fails and changes
nothing, which this fold reflects.) -/
def attachedNow (ops : List Op) (p : Nat) : Bool :=
  ops.foldl (fun s op =>
    match op with
    | Op.attachOp q => if q = p then true else s
    | Op.detachOp q => if q = p then false else s) false

/-- The pid an operation mentions. -/
def opPid : Op → Nat
  | Op.attachOp p => p
  | Op.detachOp p => p

/-- Outcome of one blocking `rd.Read()` in the ingestion loop
(tracer.go line 228): the reader was closed (`perf.ErrClosed`), some other
read error, or a record carrying a lost-sample count and a raw sample. -/
inductive ReadResult where
  | closed
  | readFail (msg : String)
  | record (lostSamples : Nat) (raw : List Nat)
deriving DecidableEq, Repr

/-- A callback invocation made by the ingestion loop: a synthesized error
event (`baseEvent (types.Err msg)`), a synthesized warning event
(`baseEvent (types.Warn msg)`), or a decoded event. -/
inductive Emitted (Event : Type) where
  | errEv (msg : String)
  | warnEv (msg : String)
  | ev (e : Event)
deriving DecidableEq, Repr

/-- Model of `Tracer.listen` (tracer.go lines 220-255) over a stream of read
outcomes, returning the sequence of callback invocations.  `processEvent`
is the caller-supplied decoder; `Except.ok none` is a deliberately
filtered record. -/
def listen {Event : Type} (netns : Nat)
    (processEvent : List Nat → Nat → Except String (Option Event)) :
    List ReadResult → List (Emitted Event)
  | [] => []
  | ReadResult.closed :: _ => []
  | ReadResult.readFail msg :: _ =>
    [Emitted.errEv ("Error reading perf ring buffer (" ++ toString netns ++ "): " ++ msg)]
  | ReadResult.record lost raw :: rest =>
    if lost ≠ 0 then
      Emitted.warnEv ("lost " ++ toString lost ++ " samples (" ++ toString netns ++ ")")
        :: listen netns processEvent rest
    else
      match processEvent raw netns with
      | Except.error e => Emitted.errEv e :: listen netns processEvent rest
      | Except.ok none => listen netns processEvent rest
      | Except.ok (some ev) => Emitted.ev ev :: listen netns processEvent rest

/-- The fixed map name `SocketsMapName` (tracer.go line 37). -/
def SocketsMapName : String := "sockets"

/-- The part of an `ebpf.CollectionSpec` this development needs: the
declared map names and the named constants subject to `RewriteConstants`. -/
structure CollectionSpecM where
  mapNames : List String
  consts : List (String × Nat)
deriving DecidableEq, Repr

/-- Model of `NewTracer` (tracer.go lines 145-180), restricted to its enricher
decision.  `enricherResult` is the outcome of `NewSocketEnricher()`.
Returns the constructor's result: on `Except.ok`, whether the tracer holds
an enricher, together with the `log.Errorf` lines emitted. -/
def NewTracerM (spec : CollectionSpecM) (enricherResult : Except String Unit) :
    Except String (Bool × List String) :=
  if spec.mapNames.any (fun n => n == SocketsMapName) then
    match enricherResult with
    | Except.ok _ => Except.ok (true, [])
    | Except.error e => Except.ok (false, ["creating socket enricher: " ++ e])
  else
    Except.ok (false, [])

/-- The rollback-relevant fields of the partially built `attachment` during
`newAttachment` (tracer.go lines 63-66): `collection` and `perfRd` start
nil, `sockFd` starts at the sentinel -1. -/
structure BuildState where
  collection : Option Nat
  perfRd : Option Nat
  sockFd : Int
deriving DecidableEq, Repr

/-- Acquisition and release events during `newAttachment`. -/
inductive BuildEv where
  | acqCollection (c : Nat)
  | acqReader (r : Nat)
  | acqSock (fd : Int)
  | relReader (r : Nat)
  | relSock (fd : Int)
  | relCollection (c : Nat)
deriving DecidableEq, Repr

/-- The deferred rollback of `newAttachment` (tracer.go lines 67-79): close
the perf reader if non-nil, close the raw socket if not the sentinel -1,
close the collection if non-nil — in that order. -/
def rollback (st : BuildState) : List BuildEv :=
  (match st.perfRd with
   | some r => [BuildEv.relReader r]
   | none => []) ++
  (if st.sockFd ≠ -1 then [BuildEv.relSock st.sockFd] else []) ++
  (match st.collection with
   | some c => [BuildEv.relCollection c]
   | none => [])

/-- The environment `newAttachment` runs in: which fallible step succeeds,
and the handles the kernel hands out.  `hasEnricher` decides whether the
constant-rewriting step runs at all (tracer.go line 85). -/
structure BuildEnv where
  hasEnricher : Bool
  rewriteOk : Bool
  collectionOk : Bool
  collectionId : Nat
  readerOk : Bool
  readerId : Nat
  progFound : Bool
  rawSockOk : Bool
  sockFdVal : Int
  setsockoptOk : Bool
deriving DecidableEq, Repr

/-- Model of `newAttachment` (tracer.go lines 54-125) with its resource trace:
rewrite constants (only with an enricher), load the collection, open the
perf reader, look the program up, open the raw socket, bind via
setsockopt.  On any failure the deferred `rollback` of the state reached
so far runs and the error is returned. -/
def newAttachmentTr (pid : Nat) (env : BuildEnv) :
    Except String Attachment × List BuildEv :=
  let st0 : BuildState := { collection := none, perfRd := none, sockFd := -1 }
  if env.hasEnricher && !env.rewriteOk then
    (Except.error ("rewriting constants while attaching to pid " ++ toString pid), rollback st0)
  else if !env.collectionOk then
    (Except.error "creating BPF collection", rollback st0)
  else
    let st1 := { st0 with collection := some env.collectionId }
    let tr1 := [BuildEv.acqCollection env.collectionId]
    if !env.readerOk then
      (Except.error "getting a perf reader", tr1 ++ rollback st1)
    else
      let st2 := { st1 with perfRd := some env.readerId }
      let tr2 := tr1 ++ [BuildEv.acqReader env.readerId]
      if !env.progFound then
        (Except.error "BPF program not found", tr2 ++ rollback st2)
      else if !env.rawSockOk then
        (Except.error "opening raw socket", tr2 ++ rollback st2)
      else
        let st3 := { st2 with sockFd := env.sockFdVal }
        let tr3 := tr2 ++ [BuildEv.acqSock env.sockFdVal]
        if !env.setsockoptOk then
          (Except.error "attaching BPF program", tr3 ++ rollback st3)
        else
          (Except.ok { collection := env.collectionId, perfRd := env.readerId,
                       sockFd := env.sockFdVal, users := [pid] }, tr3)

/-- Projections of a build trace. -/
def acquiredReaders (tr : List BuildEv) : List Nat :=
  tr.filterMap (fun e => match e with | BuildEv.acqReader r => some r | _ => none)

def releasedReaders (tr : List BuildEv) : List Nat :=
  tr.filterMap (fun e => match e with | BuildEv.relReader r => some r | _ => none)

def acquiredSocks (tr : List BuildEv) : List Int :=
  tr.filterMap (fun e => match e with | BuildEv.acqSock fd => some fd | _ => none)

def releasedSocks (tr : List BuildEv) : List Int :=
  tr.filterMap (fun e => match e with | BuildEv.relSock fd => some fd | _ => none)

def acquiredCollections (tr : List BuildEv) : List Nat :=
  tr.filterMap (fun e => match e with | BuildEv.acqCollection c => some c | _ => none)

def releasedCollections (tr : List BuildEv) : List Nat :=
  tr.filterMap (fun e => match e with | BuildEv.relCollection c => some c | _ => none)

def isRelease : BuildEv → Bool
  | BuildEv.relReader _ => true
  | BuildEv.relSock _ => true
  | BuildEv.relCollection _ => true
  | _ => false

/-
Template-aliasing model for `newAttachment`'s handling of the shared
`*ebpf.CollectionSpec`.  The Go code receives a pointer to the Tracer's
spec; line 81 rebinds the local to a deep copy (`spec = spec.Copy()`), so
the later `RewriteConstants` (line 91) mutates only the copy.  Pointers
are modelled as addresses into a store of spec values.
-/

/-- A store of `CollectionSpecM` values addressed by Nat. -/
def SpecStore := List (Nat × CollectionSpecM)

def storeGet (s : SpecStore) (addr : Nat) : Option CollectionSpecM :=
  (List.find? (fun p => p.1 == addr) s).map (fun p => p.2)

def storeSet (s : SpecStore) (addr : Nat) (v : CollectionSpecM) : SpecStore :=
  List.map (fun p => if p.1 = addr then (addr, v) else p) s

/-- Allocate a fresh address (strictly above every existing one). -/
def storeAlloc (s : SpecStore) (v : CollectionSpecM) : SpecStore × Nat :=
  let addr := (List.map (fun p => p.1) s).foldr max 0 + 1
  ((addr, v) :: s, addr)

/-- Model of `spec.RewriteConstants` restricted to the one constant the source
rewrites: set `current_netns` to the (truncated) netns value
(tracer.go lines 86-93).  Fails when the constant is absent. -/
def rewriteConstants (spec : CollectionSpecM) (name : String) (v : Nat) :
    Except String CollectionSpecM :=
  if spec.consts.any (fun p => p.1 == name) then
    Except.ok { spec with
      consts := spec.consts.map (fun p => if p.1 = name then (name, v) else p) }
  else
    Except.error "rewrite constants: constant not found"

/-- The spec-handling prefix of `newAttachment` (tracer.go lines 81-98):
copy the template behind `specAddr`, then, when an enricher is present,
rewrite `current_netns` in the copy.  Returns the store after the call and
the address of the spec subsequently passed to `NewCollectionWithOptions`;
`none` models `RewriteConstants` failing. -/
def newAttachmentSpecPart (store : SpecStore) (specAddr : Nat)
    (hasEnricher : Bool) (netns : Nat) : SpecStore × Option Nat :=
  match storeGet store specAddr with
  | none => (store, none)
  | some v =>
    let alloc := storeAlloc store v
    if hasEnricher then
      match rewriteConstants v "current_netns" netns with
      | Except.ok v2 => (storeSet alloc.1 alloc.2 v2, some alloc.2)
      | Except.error _ => (alloc.1, none)
    else
      (alloc.1, some alloc.2)

end NetworkTracer

namespace SockEnricher

/-- Effects of `SocketEnricher.Close` (socketenricher/tracer.go lines
213-225): delivering the one-shot shutdown signal (`close(se.done)`),
releasing one probe link (`gadgets.CloseLink(l)`), and releasing the
loaded objects (`se.objs.Close()`). -/
inductive SEEffect where
  | signalDone
  | closeLink (l : Nat)
  | closeObjs
deriving DecidableEq, Repr

/-- The `SocketEnricher` fields `Close` touches: whether the
`sync.Once` has fired, whether `done` is non-nil, and the attached links
in attach order. -/
structure SEState where
  onceDone : Bool
  doneChan : Bool
  links : List Nat
deriving DecidableEq, Repr

/-- Model of `SocketEnricher.Close` (socketenricher/tracer.go lines 213-225):
`closeOnce.Do` closes `done` (when non-nil) only on the first call; then
every link in `se.links` is closed in order and `links` is set to nil;
finally `objs.Close()` runs — on every call. -/
def seClose (se : SEState) : SEState × List SEEffect :=
  let sigEffs : List SEEffect :=
    if se.onceDone then [] else if se.doneChan then [SEEffect.signalDone] else []
  ({ onceDone := true, doneChan := se.doneChan, links := [] },
   sigEffs ++ se.links.map SEEffect.closeLink ++ [SEEffect.closeObjs])

end SockEnricher

namespace NetworkTracer

/-- Claim C5: in the ingestion loop, a read failing with the reader-closed
condition terminates the task with no event emitted, and a read failing
with any other error emits exactly one synthesized error event and then
terminates; in both cases no further records are processed. -/
theorem C5_read_error_termination {Event : Type} (netns : Nat)
    (processEvent : List Nat → Nat → Except String (Option Event))
    (rest : List ReadResult) (msg : String) :
    listen netns processEvent (ReadResult.closed :: rest) = ([] : List (Emitted Event))
    ∧ listen netns processEvent (ReadResult.readFail msg :: rest)
        = [Emitted.errEv ("Error reading perf ring buffer (" ++ toString netns ++ "): " ++ msg)] :=
  ⟨rfl, rfl⟩

/-- Claim C6: a record with a positive lost-sample count produces exactly
one warning event naming the loss count and the namespace, and the loop
continues; a decode failure produces exactly one error event and the loop
continues; a decoder returning no event and no error produces no callback
invocation and the loop continues. -/
theorem C6_record_handling {Event : Type} (netns : Nat)
    (processEvent : List Nat → Nat → Except String (Option Event))
    (rest : List ReadResult) (lost : Nat) (raw : List Nat) :
    (lost ≠ 0 →
      listen netns processEvent (ReadResult.record lost raw :: rest)
        = Emitted.warnEv ("lost " ++ toString lost ++ " samples (" ++ toString netns ++ ")")
            :: listen netns processEvent rest)
    ∧ (∀ e, processEvent raw netns = Except.error e →
        listen netns processEvent (ReadResult.record 0 raw :: rest)
          = Emitted.errEv e :: listen netns processEvent rest)
    ∧ (processEvent raw netns = Except.ok none →
        listen netns processEvent (ReadResult.record 0 raw :: rest)
          = listen netns processEvent rest) := by
  refine ⟨fun h => ?_, fun e he => ?_, fun hn => ?_⟩
  · simp [listen, h]
  · simp [listen, he]
  · simp [listen, hn]

/-- Decoder used to witness C6: errors on [1], filters [2], decodes
anything else to 7. -/
def peW : List Nat → Nat → Except String (Option Nat) :=
  fun raw _ =>
    if raw = [1] then Except.error "bad"
    else if raw = [2] then Except.ok none
    else Except.ok (some 7)

theorem C6_record_handling_witness :
    (listen 9 peW [ReadResult.record 3 [0]]
       = Emitted.warnEv ("lost " ++ toString 3 ++ " samples (" ++ toString 9 ++ ")")
           :: listen 9 peW [])
    ∧ (listen 9 peW [ReadResult.record 0 [1]] = Emitted.errEv "bad" :: listen 9 peW [])
    ∧ (listen 9 peW [ReadResult.record 0 [2]] = listen 9 peW []) :=
  ⟨(C6_record_handling 9 peW [] 3 [0]).1 (by decide),
   (C6_record_handling 9 peW [] 0 [1]).2.1 "bad" (by rfl),
   (C6_record_handling 9 peW [] 0 [2]).2.2 (by rfl)⟩

/-- A spec that declares the `sockets` map, so the tracer does need the
socket-ownership table. -/
def specWithSockets : CollectionSpecM :=
  { mapNames := ["foo", "sockets"], consts := [("current_netns", 0)] }

/-- Claim C4, counterexample: the spec declares a map named `sockets`
(some attachment needs the ownership table), the enricher construction
fails, and yet `NewTracer` succeeds — the failure is logged and the tracer
is constructed without an enricher, never propagated as a fatal error
(tracer.go lines 161-165, comment "Non fatal"). -/
theorem C4_counterexample :
    (specWithSockets.mapNames.any (fun n => n == SocketsMapName)) = true
    ∧ NewTracerM specWithSockets (Except.error "btf missing")
        = Except.ok (false, ["creating socket enricher: btf missing"]) := by
  exact ⟨rfl, rfl⟩

/-- Claim C4, amended: a failure to construct the enrichment service is
never fatal to `NewTracer`.  When the spec declares a map named `sockets`,
the failure is logged via `log.Errorf` and the tracer is still constructed
without an enricher; when no map has that name, enricher construction is
not even attempted and nothing is logged. -/
theorem C4_enricher_nonfatal (spec : CollectionSpecM) (res : Except String Unit) :
    (NewTracerM spec res).isOk = true
    ∧ (spec.mapNames.any (fun n => n == SocketsMapName) = false →
        NewTracerM spec res = Except.ok (false, []))
    ∧ (∀ e, spec.mapNames.any (fun n => n == SocketsMapName) = true →
        res = Except.error e →
        NewTracerM spec res = Except.ok (false, ["creating socket enricher: " ++ e]))
    ∧ (spec.mapNames.any (fun n => n == SocketsMapName) = true →
        res = Except.ok () →
        NewTracerM spec res = Except.ok (true, [])) := by
  refine ⟨?_, fun h => ?_, fun e h hr => ?_, fun h hr => ?_⟩
  · unfold NewTracerM
    rcases hany : spec.mapNames.any (fun n => n == SocketsMapName) with _ | _
    · simp [Except.isOk, Except.toBool]
    · cases res <;> simp [Except.isOk, Except.toBool]
  · simp [NewTracerM, h]
  · simp [NewTracerM, h, hr]
  · simp [NewTracerM, h, hr]

theorem C4_enricher_nonfatal_witness :
    (specWithSockets.mapNames.any (fun n => n == SocketsMapName) = true
      ∧ Except.error "btf missing" = (Except.error "btf missing" : Except String Unit))
    ∧ NewTracerM specWithSockets (Except.error "btf missing")
        = Except.ok (false, ["creating socket enricher: btf missing"]) :=
  ⟨⟨by rfl, rfl⟩,
   (C4_enricher_nonfatal specWithSockets (Except.error "btf missing")).2.2.1
     "btf missing" (by rfl) rfl⟩

end NetworkTracer

namespace SockEnricher

/-- A started socket enricher with one attached link, ready to close. -/
def seW : SEState := { onceDone := false, doneChan := true, links := [4] }

/-- Claim C9, counterexample: across two Close calls on a started
enricher, the shutdown signal fires once and the probe link is released
once, but `objs.Close()` — the release of the loaded program/map set —
runs twice, once per call, so it is not released exactly once across all
Close calls. -/
theorem C9_counterexample :
    ((seClose seW).2 ++ (seClose (seClose seW).1).2
      = [SEEffect.signalDone, SEEffect.closeLink 4, SEEffect.closeObjs, SEEffect.closeObjs])
    ∧ (((seClose seW).2 ++ (seClose (seClose seW).1).2).countP
        (fun e => e == SEEffect.closeObjs) = 2)
    ∧ (((seClose seW).2 ++ (seClose (seClose seW).1).2).countP
        (fun e => e == SEEffect.signalDone) = 1)
    ∧ (((seClose seW).2 ++ (seClose (seClose seW).1).2).countP
        (fun e => e == SEEffect.closeLink 4) = 1) := by
  exact ⟨rfl, rfl, rfl, rfl⟩

/-- Claim C9, amended: the first Close on a started enricher delivers the
one-shot shutdown signal exactly once, then releases every probe link in
attach order followed by the program/map set; any later Close delivers no
signal and releases no link (the link list was cleared), but re-invokes
the program/map set release — `objs.Close()` runs on every call, a no-op
release on already-closed objects. -/
theorem C9_close_signal_once (se : SEState)
    (h1 : se.onceDone = false) (h2 : se.doneChan = true) :
    (seClose se).2
      = SEEffect.signalDone :: (se.links.map SEEffect.closeLink ++ [SEEffect.closeObjs])
    ∧ (seClose (seClose se).1).2 = [SEEffect.closeObjs]
    ∧ (seClose (seClose se).1).1 = (seClose se).1 := by
  refine ⟨?_, ?_, ?_⟩ <;> simp [seClose, h1, h2]

theorem C9_close_signal_once_witness :
    (seW.onceDone = false ∧ seW.doneChan = true)
    ∧ ((seClose seW).2
        = SEEffect.signalDone :: (seW.links.map SEEffect.closeLink ++ [SEEffect.closeObjs])
      ∧ (seClose (seClose seW).1).2 = [SEEffect.closeObjs]
      ∧ (seClose (seClose seW).1).1 = (seClose seW).1) :=
  ⟨⟨rfl, rfl⟩, C9_close_signal_once seW rfl rfl⟩

end SockEnricher

namespace NetworkTracer

/-- Claim C7: Detach of a pid present in no attachment's user set returns
the not-attached error and leaves the tracer state — the attachments map,
every user set, every resource — exactly as before, performing no release. -/
theorem C7_detach_unattached (t : TracerState) (pid : Nat)
    (h : ∀ p ∈ t.attachments, pid ∉ p.2.users) :
    detach t pid = (t, [], some ("pid " ++ toString pid ++ " is not attached")) := by
  have hfind : t.attachments.find? (fun p => decide (pid ∈ p.2.users)) = none := by
    rw [List.find?_eq_none]
    intro p hp
    simpa using h p hp
  simp [detach, hfind]

/-- A tracer holding one attachment whose user set is {7}. -/
def tW1 : TracerState := ⟨[(1, { collection := 2, perfRd := 3, sockFd := 4, users := [7] })]⟩

theorem C7_detach_unattached_witness :
    (∀ p ∈ tW1.attachments, 9 ∉ p.2.users)
    ∧ detach tW1 9 = (tW1, [], some ("pid " ++ toString 9 ++ " is not attached")) :=
  ⟨by decide, C7_detach_unattached tW1 9 (by decide)⟩

/-- Claim C3: when Detach finds the attachment containing `pid` and the
pid was the last interested process, the perf reader, raw socket and
collection are released synchronously (in that order) and the attachment
is removed from the map before success is returned; when other interested
processes remain, nothing is released and the attachment stays registered
with the pid removed from its user set. -/
theorem C3_detach_last_releases (t : TracerState) (pid netns : Nat) (a : Attachment)
    (hfind : t.attachments.find? (fun p => decide (pid ∈ p.2.users)) = some (netns, a)) :
    (a.users.erase pid = [] →
      detach t pid
        = (⟨t.attachments.filter (fun p => decide (p.1 ≠ netns))⟩,
           [Effect.closePerfRd a.perfRd, Effect.closeSockFd a.sockFd,
            Effect.closeCollection a.collection], none)
      ∧ ∀ q ∈ (detach t pid).1.attachments, q.1 ≠ netns)
    ∧ (a.users.erase pid ≠ [] →
      detach t pid
        = (⟨updateAttachment t.attachments netns { a with users := a.users.erase pid }⟩,
           [], none)
      ∧ (netns, { a with users := a.users.erase pid }) ∈ (detach t pid).1.attachments) := by
  have hmem : (netns, a) ∈ t.attachments := List.mem_of_find?_eq_some hfind
  constructor
  · intro he
    have hd : detach t pid
        = (⟨t.attachments.filter (fun p => decide (p.1 ≠ netns))⟩,
           [Effect.closePerfRd a.perfRd, Effect.closeSockFd a.sockFd,
            Effect.closeCollection a.collection], none) := by
      simp [detach, hfind, he, releaseAttachment]
    refine ⟨hd, ?_⟩
    rw [hd]
    intro q hq
    have := (List.mem_filter.mp hq).2
    simpa using this
  · intro hne
    have hd : detach t pid
        = (⟨updateAttachment t.attachments netns { a with users := a.users.erase pid }⟩,
           [], none) := by
      simp [detach, hfind, hne]
    refine ⟨hd, ?_⟩
    rw [hd]
    unfold updateAttachment
    exact List.mem_map.mpr ⟨(netns, a), hmem, by simp⟩

def aW1 : Attachment := { collection := 11, perfRd := 12, sockFd := 13, users := [7] }

def aW2 : Attachment := { collection := 21, perfRd := 22, sockFd := 23, users := [7, 8] }

theorem C3_detach_last_releases_witness :
    (aW1.users.erase 7 = []
      ∧ detach ⟨[(5, aW1)]⟩ 7
          = (⟨[]⟩, [Effect.closePerfRd 12, Effect.closeSockFd 13,
                    Effect.closeCollection 11], none))
    ∧ (aW2.users.erase 7 ≠ []
      ∧ detach ⟨[(5, aW2)]⟩ 7 = (⟨[(5, { aW2 with users := [8] })]⟩, [], none)) :=
  ⟨⟨by decide,
    ((C3_detach_last_releases ⟨[(5, aW1)]⟩ 7 5 aW1 (by rfl)).1 (by decide)).1⟩,
   ⟨by decide,
    ((C3_detach_last_releases ⟨[(5, aW2)]⟩ 7 5 aW2 (by rfl)).2 (by decide)).1⟩⟩

/-- Claim C10: when `pid` sits in the user sets of several attachments,
one Detach removes it from the first attachment the scan finds (releasing
it if the pid was its last user), returns success, and leaves every other
attachment — including later ones also containing the pid — untouched. -/
theorem C10_detach_first_found (l1 l2 : List (Nat × Attachment)) (netns : Nat)
    (a : Attachment) (pid : Nat)
    (h1 : ∀ p ∈ l1, pid ∉ p.2.users)
    (h2 : pid ∈ a.users)
    (hk1 : ∀ p ∈ l1, p.1 ≠ netns) (hk2 : ∀ p ∈ l2, p.1 ≠ netns) :
    (detach ⟨l1 ++ (netns, a) :: l2⟩ pid).2.2 = none
    ∧ (detach ⟨l1 ++ (netns, a) :: l2⟩ pid).1.attachments
        = (if a.users.erase pid = [] then l1 ++ l2
           else l1 ++ (netns, { a with users := a.users.erase pid }) :: l2) := by
  have hfind : (l1 ++ (netns, a) :: l2).find? (fun p => decide (pid ∈ p.2.users))
      = some (netns, a) := by
    rw [List.find?_append]
    have hn : l1.find? (fun p => decide (pid ∈ p.2.users)) = none := by
      rw [List.find?_eq_none]
      intro p hp
      simpa using h1 p hp
    rw [hn, List.find?_cons_of_pos _ (by simpa using h2)]
    rfl
  by_cases he : a.users.erase pid = []
  · have hfil : (l1 ++ (netns, a) :: l2).filter (fun p => decide (p.1 ≠ netns))
        = l1 ++ l2 := by
      rw [List.filter_append]
      have e1 : l1.filter (fun p => decide (p.1 ≠ netns)) = l1 :=
        List.filter_eq_self.mpr (fun p hp => by simpa using hk1 p hp)
      have e2 : ((netns, a) :: l2).filter (fun p => decide (p.1 ≠ netns)) = l2 := by
        rw [List.filter_cons_of_neg (by simp)]
        exact List.filter_eq_self.mpr (fun p hp => by simpa using hk2 p hp)
      rw [e1, e2]
    constructor
    · simp [detach, hfind, he, releaseAttachment]
    · simp only [detach, hfind, he, releaseAttachment]
      simpa using hfil
  · have hupd : updateAttachment (l1 ++ (netns, a) :: l2) netns
        { a with users := a.users.erase pid }
        = l1 ++ (netns, { a with users := a.users.erase pid }) :: l2 := by
      unfold updateAttachment
      rw [List.map_append]
      have e1 : l1.map (fun p =>
          if p.1 = netns then (netns, { a with users := a.users.erase pid }) else p) = l1 := by
        have := List.map_congr_left (l := l1)
          (f := fun p =>
            if p.1 = netns then (netns, { a with users := a.users.erase pid }) else p)
          (g := fun p => p)
          (fun p hp => if_neg (hk1 p hp))
        simpa using this
      have e2 : ((netns, a) :: l2).map (fun p =>
          if p.1 = netns then (netns, { a with users := a.users.erase pid }) else p)
          = (netns, { a with users := a.users.erase pid }) :: l2 := by
        rw [List.map_cons]
        have e3 : l2.map (fun p =>
            if p.1 = netns then (netns, { a with users := a.users.erase pid }) else p) = l2 := by
          have := List.map_congr_left (l := l2)
            (f := fun p =>
              if p.1 = netns then (netns, { a with users := a.users.erase pid }) else p)
            (g := fun p => p)
            (fun p hp => if_neg (hk2 p hp))
          simpa using this
        rw [e3]
        simp
      rw [e1, e2]
    constructor
    · simp [detach, hfind, he]
    · simp [detach, hfind, he, hupd]

def aW3 : Attachment := { collection := 31, perfRd := 32, sockFd := 33, users := [8] }

def aW4 : Attachment := { collection := 41, perfRd := 42, sockFd := 43, users := [7, 9] }

def aW5 : Attachment := { collection := 51, perfRd := 52, sockFd := 53, users := [7] }

theorem C10_detach_first_found_witness :
    (detach ⟨[(1, aW3)] ++ (2, aW4) :: [(3, aW5)]⟩ 7).2.2 = none
    ∧ (detach ⟨[(1, aW3)] ++ (2, aW4) :: [(3, aW5)]⟩ 7).1.attachments
        = [(1, aW3)] ++ (2, { aW4 with users := [9] }) :: [(3, aW5)] := by
  have h := C10_detach_first_found [(1, aW3)] [(3, aW5)] 2 aW4 7
    (by decide) (by decide) (by decide) (by decide)
  refine ⟨h.1, ?_⟩
  rw [h.2]
  rfl

/-- On construction failure, `Attach` wraps and returns the error and the
state is untouched (tracer.go lines 192-196). -/
theorem attach_construct_error (construct : Nat → Nat → Except String Attachment)
    (t : TracerState) (pid netns : Nat) (e : String)
    (hf : t.attachments.find? (fun p => decide (p.1 = netns)) = none)
    (hc : construct pid netns = Except.error e) :
    attach (fun _ => Except.ok netns) construct t pid
      = (t, some ("creating network tracer attachment for pid " ++ toString pid ++ ": " ++ e)) := by
  simp [attach, hf, hc]

set_option maxHeartbeats 4000000 in
/-- Claim C2: when attachment construction fails at any step, Attach
returns the construction error and leaves `attachments` unchanged; the
trace releases exactly the resources acquired before the failing step,
each exactly once, in the order reader, raw socket, collection; and the
rollback of a fully unacquired state (reader nil, socket at the sentinel
-1, collection nil) performs no release at all. -/
theorem C2_construction_rollback (pid : Nat) (env : BuildEnv) (e : String)
    (hfail : (newAttachmentTr pid env).1 = Except.error e)
    (hsock : env.sockFdVal ≠ -1) :
    (releasedReaders (newAttachmentTr pid env).2 = acquiredReaders (newAttachmentTr pid env).2
     ∧ releasedSocks (newAttachmentTr pid env).2 = acquiredSocks (newAttachmentTr pid env).2
     ∧ releasedCollections (newAttachmentTr pid env).2
         = acquiredCollections (newAttachmentTr pid env).2
     ∧ (acquiredReaders (newAttachmentTr pid env).2).length ≤ 1
     ∧ (acquiredSocks (newAttachmentTr pid env).2).length ≤ 1
     ∧ (acquiredCollections (newAttachmentTr pid env).2).length ≤ 1
     ∧ (newAttachmentTr pid env).2.filter isRelease
         = (releasedReaders (newAttachmentTr pid env).2).map BuildEv.relReader
           ++ (releasedSocks (newAttachmentTr pid env).2).map BuildEv.relSock
           ++ (releasedCollections (newAttachmentTr pid env).2).map BuildEv.relCollection)
    ∧ rollback { collection := none, perfRd := none, sockFd := -1 } = []
    ∧ (∀ (t : TracerState) (netns : Nat),
        t.attachments.find? (fun p => decide (p.1 = netns)) = none →
        attach (fun _ => Except.ok netns) (fun q _ => (newAttachmentTr q env).1) t pid
          = (t, some ("creating network tracer attachment for pid " ++ toString pid
              ++ ": " ++ e))) := by
  refine ⟨?_, rfl, fun t netns hf => attach_construct_error _ t pid netns e hf hfail⟩
  obtain ⟨hasE, rwOk, coOk, cid, rdOk, rid, pf, rs, fd, so⟩ := env
  have hs : fd ≠ -1 := hsock
  cases hasE <;> cases rwOk <;> cases coOk <;> cases rdOk <;> cases pf <;> cases rs <;> cases so <;>
    first
    | exact absurd hfail (fun h => Except.noConfusion h)
    | exact ⟨rfl, rfl, rfl, by decide, by decide, by decide, rfl⟩
    | (refine ⟨?_, ?_, ?_, ?_, ?_, ?_, ?_⟩ <;>
        simp [newAttachmentTr, rollback, releasedReaders, acquiredReaders, releasedSocks,
              acquiredSocks, releasedCollections, acquiredCollections, isRelease, hs])

/-- A build environment failing at the very last step (the setsockopt
attach), with all three resources acquired. -/
def envW : BuildEnv :=
  { hasEnricher := true, rewriteOk := true, collectionOk := true, collectionId := 10,
    readerOk := true, readerId := 20, progFound := true, rawSockOk := true,
    sockFdVal := 7, setsockoptOk := false }

theorem C2_construction_rollback_witness :
    ((newAttachmentTr 5 envW).1 = Except.error "attaching BPF program"
      ∧ envW.sockFdVal ≠ -1)
    ∧ ((newAttachmentTr 5 envW).2.filter isRelease
          = [BuildEv.relReader 20, BuildEv.relSock 7, BuildEv.relCollection 10]
      ∧ attach (fun _ => Except.ok 3) (fun q _ => (newAttachmentTr q envW).1) ⟨[]⟩ 5
          = (⟨[]⟩, some ("creating network tracer attachment for pid " ++ toString 5
              ++ ": " ++ "attaching BPF program"))) := by
  have h := C2_construction_rollback 5 envW "attaching BPF program" (by rfl) (by decide)
  refine ⟨⟨by rfl, by decide⟩, ?_, h.2.2 ⟨[]⟩ 3 (by rfl)⟩
  rw [h.1.2.2.2.2.2.2]
  rfl

/-- Reading a cons cell of the store. -/
theorem storeGet_cons (p : Nat × CollectionSpecM) (s : SpecStore) (b : Nat) :
    storeGet (p :: s) b = if p.1 = b then some p.2 else storeGet s b := by
  unfold storeGet
  by_cases hp : p.1 = b
  · rw [List.find?_cons_of_pos _ (by simpa using hp), if_pos hp]
    rfl
  · rw [List.find?_cons_of_neg _ (by simpa using hp), if_neg hp]

/-- Writing the store at one address does not disturb another. -/
theorem storeGet_storeSet_ne (s : SpecStore) (a : Nat) (v : CollectionSpecM) (b : Nat)
    (h : a ≠ b) : storeGet (storeSet s a v) b = storeGet s b := by
  induction s with
  | nil => rfl
  | cons p s ih =>
    show storeGet ((if p.1 = a then (a, v) else p) :: storeSet s a v) b = _
    by_cases hp : p.1 = a
    · rw [if_pos hp, storeGet_cons, storeGet_cons, ih]
      simp [hp, h]
    · rw [if_neg hp, storeGet_cons, storeGet_cons, ih]

/-- Writing the store at a present address stores the value. -/
theorem storeGet_storeSet_self (s : SpecStore) (a : Nat) (v : CollectionSpecM)
    (h : (storeGet s a).isSome) : storeGet (storeSet s a v) a = some v := by
  induction s with
  | nil => simp [storeGet] at h
  | cons p s ih =>
    show storeGet ((if p.1 = a then (a, v) else p) :: storeSet s a v) a = some v
    by_cases hp : p.1 = a
    · rw [if_pos hp, storeGet_cons, if_pos rfl]
    · rw [if_neg hp, storeGet_cons, if_neg hp]
      rw [storeGet_cons, if_neg hp] at h
      exact ih h

theorem mem_le_foldr_max (l : List Nat) (x : Nat) (hx : x ∈ l) : x ≤ l.foldr max 0 := by
  induction l with
  | nil => cases hx
  | cons a l ih =>
    rcases List.mem_cons.mp hx with h | h
    · subst h; exact le_max_left _ _
    · exact le_trans (ih h) (le_max_right _ _)

/-- A readable address is in the store's domain. -/
theorem storeGet_some_mem_fst (s : SpecStore) (b : Nat) (v : CollectionSpecM)
    (h : storeGet s b = some v) : b ∈ s.map (fun p => p.1) := by
  unfold storeGet at h
  cases hf : List.find? (fun p => p.1 == b) s with
  | none => rw [hf] at h; cases h
  | some p =>
    have hp : p.1 = b := by simpa using List.find?_some hf
    have hm := List.mem_of_find?_eq_some hf
    exact hp ▸ List.mem_map_of_mem _ hm

/-- Freshly allocated addresses do not collide with existing ones. -/
theorem storeAlloc_fresh (s : SpecStore) (v : CollectionSpecM) (b : Nat)
    (hb : b ∈ s.map (fun p => p.1)) : (storeAlloc s v).2 ≠ b := by
  have hle : b ≤ (s.map (fun p => p.1)).foldr max 0 := mem_le_foldr_max _ _ hb
  show (s.map (fun p => p.1)).foldr max 0 + 1 ≠ b
  omega

/-- Core frame property of the spec-handling prefix of `newAttachment`:
the template is preserved and the spec that gets loaded is a fresh copy
(rewritten from the template exactly when an enricher is present). -/
theorem specPart_frame (store : SpecStore) (specAddr : Nat) (hasEnricher : Bool)
    (netns : Nat) (v : CollectionSpecM) (hget : storeGet store specAddr = some v) :
    storeGet (newAttachmentSpecPart store specAddr hasEnricher netns).1 specAddr = some v
    ∧ (∀ u, (newAttachmentSpecPart store specAddr hasEnricher netns).2 = some u →
        u ≠ specAddr
        ∧ (hasEnricher = false →
            storeGet (newAttachmentSpecPart store specAddr hasEnricher netns).1 u = some v)
        ∧ (hasEnricher = true →
            ∃ v2, rewriteConstants v "current_netns" netns = Except.ok v2
              ∧ storeGet (newAttachmentSpecPart store specAddr hasEnricher netns).1 u
                  = some v2)) := by
  have hA : (storeAlloc store v).2 ≠ specAddr :=
    storeAlloc_fresh store v specAddr (storeGet_some_mem_fst store specAddr v hget)
  have halloc : (storeAlloc store v).1 = ((storeAlloc store v).2, v) :: store := rfl
  cases hasEnricher with
  | false =>
    have heq : newAttachmentSpecPart store specAddr false netns
        = ((storeAlloc store v).1, some (storeAlloc store v).2) := by
      simp [newAttachmentSpecPart, hget]
    rw [heq]
    refine ⟨?_, fun u hu => ?_⟩
    · rw [halloc, storeGet_cons, if_neg hA, hget]
    · have hu2 : u = (storeAlloc store v).2 := by
        simpa using hu.symm
      subst hu2
      refine ⟨hA, ?_, ?_⟩
      · intro _
        rw [halloc, storeGet_cons]
        simp
      · intro hcon
        cases hcon
  | true =>
    cases hrw : rewriteConstants v "current_netns" netns with
    | error msg =>
      have heq : newAttachmentSpecPart store specAddr true netns
          = ((storeAlloc store v).1, none) := by
        simp [newAttachmentSpecPart, hget, hrw]
      rw [heq]
      refine ⟨?_, fun u hu => by cases hu⟩
      rw [halloc, storeGet_cons, if_neg hA, hget]
    | ok v2 =>
      have heq : newAttachmentSpecPart store specAddr true netns
          = (storeSet (storeAlloc store v).1 (storeAlloc store v).2 v2,
             some (storeAlloc store v).2) := by
        simp [newAttachmentSpecPart, hget, hrw]
      rw [heq]
      refine ⟨?_, fun u hu => ?_⟩
      · rw [storeGet_storeSet_ne _ _ _ _ hA, halloc, storeGet_cons, if_neg hA, hget]
      · have hu2 : u = (storeAlloc store v).2 := by
          simpa using hu.symm
        subst hu2
        refine ⟨hA, ?_, ?_⟩
        · intro hcon
          cases hcon
        · intro _
          refine ⟨v2, rfl, ?_⟩
          apply storeGet_storeSet_self
          rw [halloc, storeGet_cons]
          simp

/-- Claim C8: `newAttachment` copies the program template before any
namespace-specific constant rewriting (tracer.go line 81), so the Tracer's
shared spec is unchanged by construction, the spec actually loaded lives at
a fresh address, and an attachment built later for another namespace
starts again from the original, unrewritten template. -/
theorem C8_template_not_mutated (store : SpecStore) (specAddr : Nat) (hasEnricher : Bool)
    (netns netns2 : Nat) (v : CollectionSpecM) (hget : storeGet store specAddr = some v) :
    storeGet (newAttachmentSpecPart store specAddr hasEnricher netns).1 specAddr = some v
    ∧ (∀ u, (newAttachmentSpecPart store specAddr hasEnricher netns).2 = some u →
        u ≠ specAddr)
    ∧ (∀ u2, (newAttachmentSpecPart (newAttachmentSpecPart store specAddr hasEnricher netns).1
          specAddr hasEnricher netns2).2 = some u2 →
        (hasEnricher = false →
          storeGet (newAttachmentSpecPart
            (newAttachmentSpecPart store specAddr hasEnricher netns).1
            specAddr hasEnricher netns2).1 u2 = some v)
        ∧ (hasEnricher = true →
          ∃ v2, rewriteConstants v "current_netns" netns2 = Except.ok v2
            ∧ storeGet (newAttachmentSpecPart
                (newAttachmentSpecPart store specAddr hasEnricher netns).1
                specAddr hasEnricher netns2).1 u2 = some v2)) := by
  have h1 := specPart_frame store specAddr hasEnricher netns v hget
  have h2 := specPart_frame (newAttachmentSpecPart store specAddr hasEnricher netns).1
    specAddr hasEnricher netns2 v h1.1
  exact ⟨h1.1, fun u hu => (h1.2 u hu).1,
    fun u2 hu2 => ⟨fun hf => (h2.2 u2 hu2).2.1 hf, fun ht => (h2.2 u2 hu2).2.2 ht⟩⟩

/-- A one-template store for witnessing C8. -/
def vW : CollectionSpecM := { mapNames := ["sockets"], consts := [("current_netns", 0)] }

def storeW : SpecStore := [(1, vW)]

/-- The invariant C1 is about, tying a tracer state to the Attach/Detach
history `ops` under a fixed pid-to-netns resolution `f`: namespace keys
are pairwise distinct (one attachment per namespace), each registered
attachment has a duplicate-free, non-empty user set holding exactly the
pids currently attached that resolve to its namespace, and every attached
pid is registered somewhere. -/
def InvariantFor (f : Nat → Nat) (ops : List Op) (t : TracerState) : Prop :=
  (t.attachments.map (fun p => p.1)).Nodup
  ∧ (∀ n a, (n, a) ∈ t.attachments →
      a.users.Nodup ∧ a.users ≠ []
      ∧ ∀ p, p ∈ a.users ↔ (attachedNow ops p = true ∧ f p = n))
  ∧ (∀ p, attachedNow ops p = true →
      ∃ a, (f p, a) ∈ t.attachments ∧ p ∈ a.users)

theorem attachedNow_snoc (ops : List Op) (op : Op) (p : Nat) :
    attachedNow (ops ++ [op]) p
      = match op with
        | Op.attachOp q => if q = p then true else attachedNow ops p
        | Op.detachOp q => if q = p then false else attachedNow ops p := by
  unfold attachedNow
  rw [List.foldl_append]
  rfl

theorem runOps_snoc (f : Nat → Nat) (ops : List Op) (op : Op) (t : TracerState) :
    runOps f (ops ++ [op]) t
      = match op with
        | Op.attachOp pid =>
          (attach (fun p => Except.ok (f p)) (fun p _ => Except.ok (mkAttachment p))
            (runOps f ops t) pid).1
        | Op.detachOp pid => (detach (runOps f ops t) pid).1 := by
  unfold runOps
  rw [List.foldl_append]
  rfl

theorem mem_insertUser (pid : Nat) (a : Attachment) (q : Nat) :
    q ∈ (insertUser pid a).users ↔ q = pid ∨ q ∈ a.users := by
  unfold insertUser
  by_cases h : pid ∈ a.users
  · rw [if_pos h]
    constructor
    · exact fun hq => Or.inr hq
    · rintro (rfl | hq)
      · exact h
      · exact hq
  · rw [if_neg h]
    simp [or_comm]

theorem insertUser_nodup (pid : Nat) (a : Attachment) (h : a.users.Nodup) :
    (insertUser pid a).users.Nodup := by
  unfold insertUser
  by_cases hm : pid ∈ a.users
  · rwa [if_pos hm]
  · rw [if_neg hm]
    rw [List.nodup_append]
    refine ⟨h, List.nodup_singleton pid, ?_⟩
    intro x hx hp
    rw [List.mem_singleton] at hp
    subst hp
    exact hm hx

theorem insertUser_ne_nil (pid : Nat) (a : Attachment) : (insertUser pid a).users ≠ [] := by
  unfold insertUser
  by_cases hm : pid ∈ a.users
  · rw [if_pos hm]
    exact List.ne_nil_of_mem hm
  · rw [if_neg hm]
    simp

theorem keysOf_updateAttachment (l : List (Nat × Attachment)) (n : Nat) (a : Attachment) :
    (updateAttachment l n a).map (fun p => p.1) = l.map (fun p => p.1) := by
  unfold updateAttachment
  rw [List.map_map]
  apply List.map_congr_left
  intro p hp
  by_cases h : p.1 = n
  · simp [h]
  · simp [h]

theorem mem_updateAttachment (l : List (Nat × Attachment)) (n : Nat) (a : Attachment)
    (m : Nat) (b : Attachment) (h : (m, b) ∈ updateAttachment l n a) :
    (m = n ∧ b = a ∧ ∃ c, (n, c) ∈ l) ∨ ((m, b) ∈ l ∧ m ≠ n) := by
  unfold updateAttachment at h
  obtain ⟨p, hp, he⟩ := List.mem_map.mp h
  obtain ⟨p1, p2⟩ := p
  by_cases hc : p1 = n
  · rw [if_pos hc] at he
    injection he with h1 h2
    subst h1
    subst h2
    subst hc
    exact Or.inl ⟨rfl, rfl, p2, hp⟩
  · rw [if_neg hc] at he
    injection he with h1 h2
    subst h1
    subst h2
    exact Or.inr ⟨hp, hc⟩

theorem updateAttachment_mem_self (l : List (Nat × Attachment)) (n : Nat)
    (a c : Attachment) (hc : (n, c) ∈ l) : (n, a) ∈ updateAttachment l n a := by
  unfold updateAttachment
  exact List.mem_map.mpr ⟨(n, c), hc, by simp⟩

theorem updateAttachment_mem_other (l : List (Nat × Attachment)) (n : Nat) (a : Attachment)
    (m : Nat) (b : Attachment) (hm : (m, b) ∈ l) (hne : m ≠ n) :
    (m, b) ∈ updateAttachment l n a := by
  unfold updateAttachment
  exact List.mem_map.mpr ⟨(m, b), hm, by simp [hne]⟩

theorem nodup_keys_unique (l : List (Nat × Attachment))
    (h : (l.map (fun p => p.1)).Nodup) (n : Nat) (a b : Attachment)
    (ha : (n, a) ∈ l) (hb : (n, b) ∈ l) : a = b := by
  induction l with
  | nil => cases ha
  | cons q l ih =>
    rw [List.map_cons, List.nodup_cons] at h
    rcases List.mem_cons.mp ha with h1 | h1 <;> rcases List.mem_cons.mp hb with h2 | h2
    · rw [← h1] at h2
      injection h2 with _ h3
      exact h3.symm
    · exfalso
      apply h.1
      rw [← h1]
      exact List.mem_map.mpr ⟨(n, b), h2, rfl⟩
    · exfalso
      apply h.1
      rw [← h2]
      exact List.mem_map.mpr ⟨(n, a), h1, rfl⟩
    · exact ih h.2 h1 h2

/-- A successful Attach preserves the C1 invariant. -/
theorem invariant_attach (f : Nat → Nat) (ops : List Op) (t : TracerState) (pid : Nat)
    (h : InvariantFor f ops t) :
    InvariantFor f (ops ++ [Op.attachOp pid])
      (attach (fun p => Except.ok (f p)) (fun p _ => Except.ok (mkAttachment p)) t pid).1 := by
  obtain ⟨hkeys, hent, hcov⟩ := h
  have hnow : ∀ q, attachedNow (ops ++ [Op.attachOp pid]) q
      = if pid = q then true else attachedNow ops q := by
    intro q
    rw [attachedNow_snoc]
  cases hfind : t.attachments.find? (fun p => decide (p.1 = f pid)) with
  | some pr =>
    obtain ⟨n, a⟩ := pr
    have hn : n = f pid := by
      have := List.find?_some hfind
      simpa using this
    subst hn
    have hmem : (f pid, a) ∈ t.attachments := List.mem_of_find?_eq_some hfind
    have hstate :
        (attach (fun p => Except.ok (f p)) (fun p _ => Except.ok (mkAttachment p)) t pid).1
          = ⟨updateAttachment t.attachments (f pid) (insertUser pid a)⟩ := by
      simp [attach, hfind]
    rw [hstate]
    obtain ⟨hand, hane, haiff⟩ := hent (f pid) a hmem
    refine ⟨?_, ?_, ?_⟩
    · show ((updateAttachment t.attachments (f pid) (insertUser pid a)).map
        (fun p => p.1)).Nodup
      rw [keysOf_updateAttachment]
      exact hkeys
    · intro m b hmb
      rcases mem_updateAttachment _ _ _ _ _ hmb with ⟨rfl, rfl, _⟩ | ⟨hmb2, hne⟩
      · refine ⟨insertUser_nodup _ _ hand, insertUser_ne_nil _ _, ?_⟩
        intro q
        rw [mem_insertUser, hnow q]
        constructor
        · rintro (rfl | hq)
          · simp
          · rcases (haiff q).mp hq with ⟨hq1, hq2⟩
            refine ⟨?_, hq2⟩
            by_cases hpq : pid = q
            · rw [if_pos hpq]
            · rw [if_neg hpq]
              exact hq1
        · rintro ⟨hq1, hq2⟩
          by_cases hpq : pid = q
          · exact Or.inl hpq.symm
          · rw [if_neg hpq] at hq1
            exact Or.inr ((haiff q).mpr ⟨hq1, hq2⟩)
      · obtain ⟨hbnd, hbne, hbiff⟩ := hent m b hmb2
        refine ⟨hbnd, hbne, ?_⟩
        intro q
        rw [hnow q, hbiff q]
        constructor
        · rintro ⟨hq1, hq2⟩
          have hpq : pid ≠ q := by
            rintro rfl
            exact hne hq2.symm
          rw [if_neg hpq]
          exact ⟨hq1, hq2⟩
        · rintro ⟨hq1, hq2⟩
          by_cases hpq : pid = q
          · subst hpq
            exact absurd hq2.symm hne
          · rw [if_neg hpq] at hq1
            exact ⟨hq1, hq2⟩
    · intro q hq
      rw [hnow q] at hq
      by_cases hpq : pid = q
      · subst hpq
        refine ⟨insertUser pid a, updateAttachment_mem_self _ _ _ a hmem, ?_⟩
        rw [mem_insertUser]
        exact Or.inl rfl
      · rw [if_neg hpq] at hq
        obtain ⟨b, hb1, hb2⟩ := hcov q hq
        by_cases hfq : f q = f pid
        · have hba : b = a := by
            rw [hfq] at hb1
            exact nodup_keys_unique _ hkeys _ _ _ hb1 hmem
          refine ⟨insertUser pid a, ?_, ?_⟩
          · rw [hfq]
            exact updateAttachment_mem_self _ _ _ a hmem
          · rw [mem_insertUser]
            refine Or.inr ?_
            rw [← hba]
            exact hb2
        · exact ⟨b, updateAttachment_mem_other _ _ _ _ _ hb1 hfq, hb2⟩
  | none =>
    have hnone : ∀ p ∈ t.attachments, p.1 ≠ f pid := by
      intro p hp
      have := List.find?_eq_none.mp hfind p hp
      simpa using this
    have hstate :
        (attach (fun p => Except.ok (f p)) (fun p _ => Except.ok (mkAttachment p)) t pid).1
          = ⟨t.attachments ++ [(f pid, mkAttachment pid)]⟩ := by
      simp [attach, hfind]
    rw [hstate]
    refine ⟨?_, ?_, ?_⟩
    · show ((t.attachments ++ [(f pid, mkAttachment pid)]).map (fun p => p.1)).Nodup
      rw [List.map_append, List.nodup_append]
      refine ⟨hkeys, by simp, ?_⟩
      intro x hx hx2
      simp at hx2
      subst hx2
      obtain ⟨p, hp, hpe⟩ := List.mem_map.mp hx
      exact hnone p hp hpe
    · intro m b hmb
      rcases List.mem_append.mp hmb with hmb2 | hmb2
      · obtain ⟨hbnd, hbne, hbiff⟩ := hent m b hmb2
        have hmne : m ≠ f pid := hnone (m, b) hmb2
        refine ⟨hbnd, hbne, ?_⟩
        intro q
        rw [hnow q, hbiff q]
        constructor
        · rintro ⟨hq1, hq2⟩
          have hpq : pid ≠ q := by
            rintro rfl
            exact hmne hq2.symm
          rw [if_neg hpq]
          exact ⟨hq1, hq2⟩
        · rintro ⟨hq1, hq2⟩
          by_cases hpq : pid = q
          · subst hpq
            exact absurd hq2.symm hmne
          · rw [if_neg hpq] at hq1
            exact ⟨hq1, hq2⟩
      · rw [List.mem_singleton] at hmb2
        injection hmb2 with hm1 hm2
        subst hm1
        subst hm2
        refine ⟨by simp [mkAttachment], by simp [mkAttachment], ?_⟩
        intro q
        rw [hnow q]
        show q ∈ [pid] ↔ _
        constructor
        · intro hq
          rw [List.mem_singleton] at hq
          subst hq
          simp
        · rintro ⟨hq1, hq2⟩
          by_cases hpq : pid = q
          · subst hpq
            simp
          · rw [if_neg hpq] at hq1
            obtain ⟨b', hb1, _⟩ := hcov q hq1
            rw [hq2] at hb1
            exact absurd rfl (hnone _ hb1)
    · intro q hq
      rw [hnow q] at hq
      by_cases hpq : pid = q
      · subst hpq
        refine ⟨mkAttachment pid, List.mem_append.mpr (Or.inr (by simp)), ?_⟩
        show pid ∈ [pid]
        simp
      · rw [if_neg hpq] at hq
        obtain ⟨b, hb1, hb2⟩ := hcov q hq
        exact ⟨b, List.mem_append.mpr (Or.inl hb1), hb2⟩

/-- A Detach preserves the C1 invariant. -/
theorem invariant_detach (f : Nat → Nat) (ops : List Op) (t : TracerState) (pid : Nat)
    (h : InvariantFor f ops t) :
    InvariantFor f (ops ++ [Op.detachOp pid]) (detach t pid).1 := by
  obtain ⟨hkeys, hent, hcov⟩ := h
  have hnow : ∀ q, attachedNow (ops ++ [Op.detachOp pid]) q
      = if pid = q then false else attachedNow ops q := by
    intro q
    rw [attachedNow_snoc]
  cases hfind : t.attachments.find? (fun p => decide (pid ∈ p.2.users)) with
  | none =>
    have hnone : ∀ p ∈ t.attachments, pid ∉ p.2.users := by
      intro p hp
      have := List.find?_eq_none.mp hfind p hp
      simpa using this
    have hstate : (detach t pid).1 = t := by
      simp [detach, hfind]
    rw [hstate]
    have hpidfalse : attachedNow ops pid = false := by
      by_contra hc
      rw [Bool.not_eq_false] at hc
      obtain ⟨b, hb1, hb2⟩ := hcov pid hc
      exact hnone _ hb1 hb2
    refine ⟨hkeys, ?_, ?_⟩
    · intro m b hmb
      obtain ⟨hbnd, hbne, hbiff⟩ := hent m b hmb
      refine ⟨hbnd, hbne, ?_⟩
      intro q
      rw [hnow q, hbiff q]
      constructor
      · rintro ⟨hq1, hq2⟩
        by_cases hpq : pid = q
        · subst hpq
          rw [hpidfalse] at hq1
          exact Bool.noConfusion hq1
        · rw [if_neg hpq]
          exact ⟨hq1, hq2⟩
      · rintro ⟨hq1, hq2⟩
        by_cases hpq : pid = q
        · rw [if_pos hpq] at hq1
          exact Bool.noConfusion hq1
        · rw [if_neg hpq] at hq1
          exact ⟨hq1, hq2⟩
    · intro q hq
      rw [hnow q] at hq
      by_cases hpq : pid = q
      · rw [if_pos hpq] at hq
        exact Bool.noConfusion hq
      · rw [if_neg hpq] at hq
        exact hcov q hq
  | some pr =>
    obtain ⟨netns, a⟩ := pr
    have hpa : pid ∈ a.users := by
      have := List.find?_some hfind
      simpa using this
    have hmem : (netns, a) ∈ t.attachments := List.mem_of_find?_eq_some hfind
    obtain ⟨hand, hane, haiff⟩ := hent netns a hmem
    have hfpid : f pid = netns := ((haiff pid).mp hpa).2
    by_cases he : a.users.erase pid = []
    · have hstate : (detach t pid).1
          = ⟨t.attachments.filter (fun p => decide (p.1 ≠ netns))⟩ := by
        simp [detach, hfind, he, releaseAttachment]
      rw [hstate]
      refine ⟨?_, ?_, ?_⟩
      · exact List.Nodup.sublist (List.Sublist.map _ (List.filter_sublist _)) hkeys
      · intro m b hmb
        rw [List.mem_filter] at hmb
        obtain ⟨hmb2, hmne⟩ := hmb
        have hmne2 : m ≠ netns := by simpa using hmne
        obtain ⟨hbnd, hbne, hbiff⟩ := hent m b hmb2
        refine ⟨hbnd, hbne, ?_⟩
        intro q
        rw [hnow q, hbiff q]
        constructor
        · rintro ⟨hq1, hq2⟩
          have hpq : pid ≠ q := by
            rintro rfl
            exact hmne2 (hq2 ▸ hfpid)
          rw [if_neg hpq]
          exact ⟨hq1, hq2⟩
        · rintro ⟨hq1, hq2⟩
          by_cases hpq : pid = q
          · rw [if_pos hpq] at hq1
            exact Bool.noConfusion hq1
          · rw [if_neg hpq] at hq1
            exact ⟨hq1, hq2⟩
      · intro q hq
        rw [hnow q] at hq
        by_cases hpq : pid = q
        · rw [if_pos hpq] at hq
          exact Bool.noConfusion hq
        · rw [if_neg hpq] at hq
          obtain ⟨b, hb1, hb2⟩ := hcov q hq
          have hfq : f q ≠ netns := by
            intro hc
            have hba : b = a := nodup_keys_unique _ hkeys _ _ _ (hc ▸ hb1) hmem
            rw [hba] at hb2
            have hq_in_erase : q ∈ a.users.erase pid :=
              (List.Nodup.mem_erase_iff hand).mpr ⟨fun hqq => hpq hqq.symm, hb2⟩
            rw [he] at hq_in_erase
            cases hq_in_erase
          refine ⟨b, ?_, hb2⟩
          rw [List.mem_filter]
          exact ⟨hb1, by simpa using hfq⟩
    · have hstate : (detach t pid).1
          = ⟨updateAttachment t.attachments netns { a with users := a.users.erase pid }⟩ := by
        simp [detach, hfind, List.isEmpty_iff, he]
      rw [hstate]
      refine ⟨?_, ?_, ?_⟩
      · rw [keysOf_updateAttachment]
        exact hkeys
      · intro m b hmb
        rcases mem_updateAttachment _ _ _ _ _ hmb with ⟨rfl, rfl, _⟩ | ⟨hmb2, hmne⟩
        · refine ⟨List.Nodup.erase _ hand, he, ?_⟩
          intro q
          rw [hnow q]
          show q ∈ a.users.erase pid ↔ _
          rw [List.Nodup.mem_erase_iff hand]
          constructor
          · rintro ⟨hqpid, hq⟩
            rcases (haiff q).mp hq with ⟨hq1, hq2⟩
            have hpq : pid ≠ q := fun hc => hqpid hc.symm
            rw [if_neg hpq]
            exact ⟨hq1, hq2⟩
          · rintro ⟨hq1, hq2⟩
            by_cases hpq : pid = q
            · rw [if_pos hpq] at hq1
              exact Bool.noConfusion hq1
            · rw [if_neg hpq] at hq1
              exact ⟨fun hc => hpq hc.symm, (haiff q).mpr ⟨hq1, hq2⟩⟩
        · obtain ⟨hbnd, hbne, hbiff⟩ := hent m b hmb2
          refine ⟨hbnd, hbne, ?_⟩
          intro q
          rw [hnow q, hbiff q]
          constructor
          · rintro ⟨hq1, hq2⟩
            have hpq : pid ≠ q := by
              rintro rfl
              exact hmne (hq2 ▸ hfpid)
            rw [if_neg hpq]
            exact ⟨hq1, hq2⟩
          · rintro ⟨hq1, hq2⟩
            by_cases hpq : pid = q
            · rw [if_pos hpq] at hq1
              exact Bool.noConfusion hq1
            · rw [if_neg hpq] at hq1
              exact ⟨hq1, hq2⟩
      · intro q hq
        rw [hnow q] at hq
        by_cases hpq : pid = q
        · rw [if_pos hpq] at hq
          exact Bool.noConfusion hq
        · rw [if_neg hpq] at hq
          obtain ⟨b, hb1, hb2⟩ := hcov q hq
          by_cases hfq : f q = netns
          · have hba : b = a := nodup_keys_unique _ hkeys _ _ _ (hfq ▸ hb1) hmem
            refine ⟨{ a with users := a.users.erase pid }, ?_, ?_⟩
            · rw [hfq]
              exact updateAttachment_mem_self _ _ _ a hmem
            · show q ∈ a.users.erase pid
              refine (List.Nodup.mem_erase_iff hand).mpr ⟨fun hc => hpq hc.symm, ?_⟩
              rw [← hba]
              exact hb2
          · exact ⟨b, updateAttachment_mem_other _ _ _ _ _ hb1 hfq, hb2⟩

/-- Every Attach/Detach sequence from the empty tracer maintains the
C1 invariant. -/
theorem invariant_runOps (f : Nat → Nat) (ops : List Op) :
    InvariantFor f ops (runOps f ops ⟨[]⟩) := by
  induction ops using List.reverseRecOn with
  | nil =>
    refine ⟨by simp [runOps], ?_, ?_⟩
    · intro n a ha
      simp [runOps] at ha
    · intro p hp
      simp [attachedNow] at hp
  | append_singleton ops op ih =>
    cases op with
    | attachOp pid =>
      rw [runOps_snoc]
      exact invariant_attach f ops _ pid ih
    | detachOp pid =>
      rw [runOps_snoc]
      exact invariant_detach f ops _ pid ih

/-- A currently attached pid occurs in the operation sequence. -/
theorem attachedNow_mem_opPids (ops : List Op) (p : Nat)
    (h : attachedNow ops p = true) : p ∈ ops.map opPid := by
  induction ops using List.reverseRecOn with
  | nil => simp [attachedNow] at h
  | append_singleton ops op ih =>
    cases op with
    | attachOp q =>
      have hh : attachedNow (ops ++ [Op.attachOp q]) p
          = if q = p then true else attachedNow ops p := by
        rw [attachedNow_snoc]
      rw [hh] at h
      by_cases hq : q = p
      · subst hq
        simp [opPid]
      · rw [if_neg hq] at h
        simp [ih h]
    | detachOp q =>
      have hh : attachedNow (ops ++ [Op.detachOp q]) p
          = if q = p then false else attachedNow ops p := by
        rw [attachedNow_snoc]
      rw [hh] at h
      by_cases hq : q = p
      · rw [if_pos hq] at h
        exact Bool.noConfusion h
      · rw [if_neg hq] at h
        simp [ih h]

/-- The user-set size equals the number of distinct pids currently
attached and resolving to this namespace. -/
theorem users_length_eq (f : Nat → Nat) (ops : List Op) (n : Nat) (a : Attachment)
    (hnd : a.users.Nodup)
    (hiff : ∀ p, p ∈ a.users ↔ (attachedNow ops p = true ∧ f p = n)) :
    a.users.length = ((ops.map opPid).dedup.filter
        (fun p => attachedNow ops p && decide (f p = n))).length := by
  apply List.Perm.length_eq
  rw [List.perm_ext_iff_of_nodup hnd (List.Nodup.filter _ (List.nodup_dedup _))]
  intro q
  rw [hiff q, List.mem_filter, List.mem_dedup]
  constructor
  · rintro ⟨h1, h2⟩
    exact ⟨attachedNow_mem_opPids ops q h1, by simp [h1, h2]⟩
  · rintro ⟨h1, h2⟩
    simp at h2
    exact ⟨h2.1, h2.2⟩

/-- Claim C1: over any sequence of Attach/Detach calls whose pids resolve
through a fixed namespace map `f` (construction succeeding), at most one
attachment exists per namespace (`attachments` keys are distinct), each
attachment's `users` set holds exactly the distinct pids attached to that
namespace and not yet detached — so its size is the number of such pids —
every attached pid is registered, and an Attach that finds an existing
attachment for the pid's namespace only inserts the pid into that
attachment's user set and returns success. -/
theorem C1_attach_dedup (f : Nat → Nat) (ops : List Op) :
    ((runOps f ops ⟨[]⟩).attachments.map (fun p => p.1)).Nodup
    ∧ (∀ n a, (n, a) ∈ (runOps f ops ⟨[]⟩).attachments →
        a.users.Nodup ∧ a.users ≠ []
        ∧ (∀ p, p ∈ a.users ↔ (attachedNow ops p = true ∧ f p = n))
        ∧ a.users.length = ((ops.map opPid).dedup.filter
            (fun p => attachedNow ops p && decide (f p = n))).length)
    ∧ (∀ p, attachedNow ops p = true →
        ∃ a, (f p, a) ∈ (runOps f ops ⟨[]⟩).attachments ∧ p ∈ a.users)
    ∧ (∀ (t : TracerState) (pid n : Nat) (a : Attachment),
        t.attachments.find? (fun pr => decide (pr.1 = f pid)) = some (n, a) →
        attach (fun p => Except.ok (f p)) (fun p _ => Except.ok (mkAttachment p)) t pid
          = (⟨updateAttachment t.attachments n (insertUser pid a)⟩, none)) := by
  obtain ⟨hkeys, hent, hcov⟩ := invariant_runOps f ops
  refine ⟨hkeys, ?_, hcov, ?_⟩
  · intro n a ha
    obtain ⟨h1, h2, h3⟩ := hent n a ha
    exact ⟨h1, h2, h3, users_length_eq f ops n a h1 h3⟩
  · intro t pid n a hfind
    simp [attach, hfind]

theorem C1_attach_dedup_witness :
    (attachedNow [Op.attachOp 1, Op.attachOp 2, Op.detachOp 1] 2 = true)
    ∧ (∃ a, (5, a) ∈ (runOps (fun _ => 5)
          [Op.attachOp 1, Op.attachOp 2, Op.detachOp 1] ⟨[]⟩).attachments
        ∧ 2 ∈ a.users)
    ∧ attach (fun p => Except.ok 5) (fun p _ => Except.ok (mkAttachment p))
        ⟨[(5, mkAttachment 1)]⟩ 2
        = (⟨updateAttachment [(5, mkAttachment 1)] 5 (insertUser 2 (mkAttachment 1))⟩,
           none) :=
  ⟨by decide,
   (C1_attach_dedup (fun _ => 5) [Op.attachOp 1, Op.attachOp 2, Op.detachOp 1]).2.2.1
     2 (by decide),
   (C1_attach_dedup (fun _ => 5) [Op.attachOp 1, Op.attachOp 2, Op.detachOp 1]).2.2.2
     ⟨[(5, mkAttachment 1)]⟩ 2 5 (mkAttachment 1) (by rfl)⟩

theorem C8_template_not_mutated_witness :
    (storeGet storeW 1 = some vW)
    ∧ storeGet (newAttachmentSpecPart storeW 1 true 42).1 1 = some vW
    ∧ (newAttachmentSpecPart (newAttachmentSpecPart storeW 1 true 42).1 1 true 43).2 = some 3
    ∧ storeGet (newAttachmentSpecPart (newAttachmentSpecPart storeW 1 true 42).1 1 true 43).1 3
        = some { mapNames := ["sockets"], consts := [("current_netns", 43)] } := by
  have h := C8_template_not_mutated storeW 1 true 42 43 vW (by rfl)
  refine ⟨by rfl, h.1, by rfl, ?_⟩
  obtain ⟨v2, hv2, hg⟩ := h.2.2 3 (by rfl) |>.2 rfl
  have hc : rewriteConstants vW "current_netns" 43
      = Except.ok { mapNames := ["sockets"], consts := [("current_netns", 43)] } := by rfl
  rw [hc] at hv2
  cases hv2
  exact hg

end NetworkTracer
